import Mathlib

/-!
Shallow embedding of `cli/src/opts.rs` from the didkit repository:
the `ResolverOptions::to_resolver` chain builder and the
`ContextLoaderOptions::to_context_loader` JSON-LD context-loader builder,
together with theorems settling the specification claims about them.

External collaborators (the `iref` IRI parser, `std::fs` file reads, the
`json` parser, and the built-in default context set of
`ssi::jsonld::ContextLoader`) are abstracted into an explicit environment
record `Env`, so that every definition stays executable and theorems
quantify over the collaborators' behaviour.
-/

namespace DidkitOpts

/-- Embedding of `didkit::HTTPDIDResolver`: in `opts.rs` it is built by the
infallible `HTTPDIDResolver::new` applied to the raw endpoint string (the
clap attribute `parse(from_str = HTTPDIDResolver::new)` uses the
non-fallible `from_str` form), so the resolver simply carries the string. -/
structure HTTPDIDResolver where
  endpoint : String
deriving DecidableEq, Repr

/-- Embedding of `HTTPDIDResolver::new`: wraps the given string verbatim. -/
def HTTPDIDResolver.new (s : String) : HTTPDIDResolver :=
  ⟨s⟩

/-- One element of the resolver chain: either the built-in registry resolver
(`DID_METHODS.to_resolver()` in the source) or an HTTP(S) resolver. -/
inductive ResolverRef where
  | registry : ResolverRef
  | http : HTTPDIDResolver → ResolverRef
deriving DecidableEq, Repr

/-- Embedding of `ResolverOptions` (opts.rs lines 7-15): an optional
fallback endpoint resolver and an optional override endpoint resolver. -/
structure ResolverOptions where
  did_resolver : Option HTTPDIDResolver
  did_resolver_override : Option HTTPDIDResolver
deriving DecidableEq, Repr

/-- Embedding of `didkit::SeriesResolver`: an ordered list of resolvers. -/
structure SeriesResolver where
  resolvers : List ResolverRef
deriving DecidableEq, Repr

/-- Embedding of `ResolverOptions::to_resolver` (opts.rs lines 18-27):
start from `[registry]`, push the fallback resolver at the end if present,
insert the override resolver at position 0 if present. -/
def ResolverOptions.to_resolver (o : ResolverOptions) : SeriesResolver :=
  let resolvers : List ResolverRef := [ResolverRef.registry]
  let resolvers : List ResolverRef :=
    match o.did_resolver with
    | some http_did_resolver => resolvers ++ [ResolverRef.http http_did_resolver]
    | none => resolvers
  let resolvers : List ResolverRef :=
    match o.did_resolver_override with
    | some http_did_resolver => ResolverRef.http http_did_resolver :: resolvers
    | none => resolvers
  ⟨resolvers⟩

/-- Embedding of the clap parse step for `ResolverOptions` (opts.rs lines
7-15): each endpoint string that is provided is converted by the infallible
`HTTPDIDResolver::new`; no validation is performed and no failure can occur. -/
def parseResolverOptions (fallback override_ : Option String) : ResolverOptions :=
  ⟨fallback.map HTTPDIDResolver.new, override_.map HTTPDIDResolver.new⟩

/-- Modelled from the spec: what it means for an endpoint string to "parse as
a valid HTTP(S) resolver target" (spec section 7, *InvalidResolverEndpoint*).
The source contains no such check; this definition exists only to state the
claim that it refutes. -/
def isValidHttpEndpoint (s : String) : Bool :=
  decide (s.data.take 7 = ("http://").data) ||
    decide (s.data.take 8 = ("https://").data)

/-- Embedding of `ContextLoaderEntry` (opts.rs lines 96-101): an identifier
string (field `iri`) and a local file path for the document body. -/
structure ContextLoaderEntry where
  iri : String
  doc_body_file_path : String
deriving DecidableEq, Repr

/-- Embedding of `ContextLoaderOptions` (opts.rs lines 30-42).  The
`AdditionalContexts` newtype around `Vec<ContextLoaderEntry>` is embedded
directly as the list it wraps. -/
structure ContextLoaderOptions where
  disable_default_contexts : Bool
  additional_contexts : Option (List ContextLoaderEntry)
deriving DecidableEq, Repr

/-- Embedding of the `didkit::Error` variant used by `to_context_loader`. -/
inductive Error where
  | invalidContextLoaderEntry : String → Error
deriving DecidableEq, Repr

/-- Result of running a Rust function that may terminate via
`Result::unwrap` on an `Err` value: either a normal return value, or a
panic carrying the typed error that was unwrapped. -/
inductive RunResult (α : Type) where
  | ok : α → RunResult α
  | panicked : Error → RunResult α
deriving DecidableEq, Repr

/-- Rust `{:?}` (Debug) formatting of a string: the string surrounded by
double quotes.  (Escaping of special characters inside the string is not
modelled; no theorem below depends on it.) -/
def rustDebug (s : String) : String :=
  "\"" ++ s ++ "\""

/-- Embedding of `json_ld::RemoteDocument::new(doc, iri)`: the parsed
document together with the IRI string it was registered under.  The parsed
document type `J` is a parameter, since the `json` crate's document type is
external to this repository. -/
structure RemoteDocument (J : Type) where
  document : J
  iri : String
deriving DecidableEq, Repr

/-- Abstraction of the external collaborators used by the two builders:
`iref::Iri::new` (validity of an IRI string, with its error message),
`std::fs::read_to_string`, `json::parse` producing a document of type `J`,
and the built-in default context set behind `ContextLoader::default()`.
All are functions, so every run of the embedded code is executable. -/
structure Env (J : Type) where
  iriNew : String → Except String Unit
  readToString : String → Except String String
  jsonParse : String → Except String J
  defaultContexts : List (String × J)

/-- Lookup in an association list keyed by strings: the value of the first
binding whose key equals `k`. -/
def lookupMap {α : Type} (m : List (String × α)) (k : String) : Option α :=
  match m.find? (fun p => decide (p.1 = k)) with
  | some p => some p.2
  | none => none

/-- Embedding of `HashMap::insert`: if the key is already bound, replace its
value in place; otherwise append the new binding. -/
def insertEntry {α : Type} (m : List (String × α)) (k : String) (v : α) :
    List (String × α) :=
  if (m.find? (fun p => decide (p.1 = k))).isSome then
    m.map (fun p => if p.1 = k then (k, v) else p)
  else
    m ++ [(k, v)]

/-- Embedding of `ssi::jsonld::ContextLoader`.  Modelled from the spec: the
loader combines a base layer (the built-in default set, or empty) with an
optional overlay context map attached by `with_context_map`. -/
structure ContextLoader (J : Type) where
  defaults : List (String × J)
  contextMap : Option (List (String × RemoteDocument J))
deriving DecidableEq, Repr

/-- Embedding of `ContextLoader::empty()`: no defaults, no overlay map. -/
def ContextLoader.emptyLoader (J : Type) : ContextLoader J :=
  ⟨[], none⟩

/-- Embedding of `ContextLoader::default()`: the built-in default context
set (taken from the environment), no overlay map. -/
def ContextLoader.defaultLoader {J : Type} (env : Env J) : ContextLoader J :=
  ⟨env.defaultContexts, none⟩

/-- Embedding of `ContextLoader::with_context_map`: attach an overlay map. -/
def ContextLoader.with_context_map {J : Type} (l : ContextLoader J)
    (m : List (String × RemoteDocument J)) : ContextLoader J :=
  { l with contextMap := some m }

/-- Modelled from the spec: the resolution function of the finished Context
Loader (spec section 3) — look the identifier up in the overlay context map
first, falling back to the base layer; `none` means "not found". -/
def ContextLoader.load {J : Type} (l : ContextLoader J) (id : String) : Option J :=
  match l.contextMap with
  | some m =>
    match lookupMap m id with
    | some rd => some rd.document
    | none => lookupMap l.defaults id
  | none => lookupMap l.defaults id

/-- The base layer chosen by `to_context_loader` before additional contexts
are considered (opts.rs lines 46-50). -/
def baseLoader {J : Type} (env : Env J) (disable : Bool) : ContextLoader J :=
  if disable then ContextLoader.emptyLoader J else ContextLoader.defaultLoader env

/-- Embedding of the entry-processing loop of `to_context_loader` (opts.rs
lines 55-86): for each entry in order, parse the IRI, read the file, parse
the body as JSON — each failure panics (via `unwrap`) with the typed
`Error::InvalidContextLoaderEntry` whose message is built by the `format!`
calls in the source — and insert the parsed document into the map keyed by
the entry's identifier. -/
def processEntries {J : Type} (env : Env J) :
    List ContextLoaderEntry → List (String × RemoteDocument J) →
    RunResult (List (String × RemoteDocument J))
  | [], context_map => RunResult.ok context_map
  | entry :: rest, context_map =>
    match env.iriNew entry.iri with
    | Except.error e =>
      RunResult.panicked (Error.invalidContextLoaderEntry
        ("invalid IRI: " ++ rustDebug entry.iri ++ "; error was " ++ e))
    | Except.ok _ =>
      match env.readToString entry.doc_body_file_path with
      | Except.error e =>
        RunResult.panicked (Error.invalidContextLoaderEntry
          ("could not read doc body from path: " ++
            rustDebug entry.doc_body_file_path ++ "; error was " ++ e))
      | Except.ok doc_body =>
        match env.jsonParse doc_body with
        | Except.error e =>
          RunResult.panicked (Error.invalidContextLoaderEntry
            ("invalid JSONLD context doc body at path: " ++
              rustDebug entry.doc_body_file_path ++ "; error was " ++ e))
        | Except.ok doc =>
          processEntries env rest
            (insertEntry context_map entry.iri ⟨doc, entry.iri⟩)

/-- Embedding of `ContextLoaderOptions::to_context_loader` (opts.rs lines
45-93): choose the base layer from `disable_default_contexts`; if
`additional_contexts` is present, process its entries into a fresh map and
attach it with `with_context_map`; otherwise return the base layer as is. -/
def ContextLoaderOptions.to_context_loader {J : Type} (env : Env J)
    (o : ContextLoaderOptions) : RunResult (ContextLoader J) :=
  let context_loader := baseLoader env o.disable_default_contexts
  match o.additional_contexts with
  | some additional_contexts =>
    match processEntries env additional_contexts [] with
    | RunResult.ok context_map =>
      RunResult.ok (context_loader.with_context_map context_map)
    | RunResult.panicked e => RunResult.panicked e
  | none => RunResult.ok context_loader

/-- Success of the three per-entry checks of the loop body, in source
order: the IRI parses, the file reads, and the body parses as JSON. -/
def entryChecks {J : Type} (env : Env J) (entry : ContextLoaderEntry) : Bool :=
  (match env.iriNew entry.iri with
   | Except.ok _ => true
   | Except.error _ => false) &&
  (match env.readToString entry.doc_body_file_path with
   | Except.ok doc_body =>
     (match env.jsonParse doc_body with
      | Except.ok _ => true
      | Except.error _ => false)
   | Except.error _ => false)

/-- The remote document an entry contributes when its file read and JSON
parse both succeed. -/
def entryDoc {J : Type} (env : Env J) (entry : ContextLoaderEntry) :
    Option (RemoteDocument J) :=
  match env.readToString entry.doc_body_file_path with
  | Except.ok doc_body =>
    match env.jsonParse doc_body with
    | Except.ok doc => some ⟨doc, entry.iri⟩
    | Except.error _ => none
  | Except.error _ => none

/-- A concrete environment over `J := Nat` used to instantiate the
universally quantified theorems at checkable inputs. -/
def exEnv : Env Nat where
  iriNew := fun s => if s = "bad iri" then Except.error ("space not allowed") else Except.ok ()
  readToString := fun p =>
    if p = "/missing" then Except.error ("no such file")
    else if p = "/notjson" then Except.ok ("not json")
    else if p = "/f1" then Except.ok ("{1}")
    else if p = "/f2" then Except.ok ("{22}")
    else Except.ok ("{}")
  jsonParse := fun s =>
    if s = "not json" then Except.error ("unexpected token") else Except.ok s.length
  defaultContexts := [(("https://www.w3.org/2018/credentials/v1"), 7)]

/-- The substring relation on strings, phrased over their character data. -/
def containsStr (s sub : String) : Prop :=
  ∃ a b : List Char, s.data = a ++ sub.data ++ b

/-- Concrete options with two additional-context entries sharing one
identifier (both files readable and parseable under `exEnv`). -/
def dupOpts : ContextLoaderOptions :=
  ⟨false, some [⟨"https://a", "/f1"⟩, ⟨"https://a", "/f2"⟩]⟩

/-- Concrete options whose single entry has an identifier rejected by the
IRI parser of `exEnv`. -/
def badIriOpts : ContextLoaderOptions :=
  ⟨false, some [⟨"bad iri", "/f1"⟩]⟩

/-- Concrete options whose single entry has a readable file whose contents
do not parse as JSON under `exEnv`. -/
def notJsonOpts : ContextLoaderOptions :=
  ⟨false, some [⟨"https://a", "/notjson"⟩]⟩

/-- Concrete options with two entries with distinct identifiers, both
readable and parseable under `exEnv`. -/
def distinctOpts : ContextLoaderOptions :=
  ⟨false, some [⟨"https://a", "/f1"⟩, ⟨"https://b", "/f2"⟩]⟩

/- ------------------------------------------------------------------ -/
/- Helper lemmas about the embedded operations.                        -/
/- ------------------------------------------------------------------ -/

theorem lookupMap_nil {α : Type} (k : String) :
    lookupMap ([] : List (String × α)) k = none := rfl

theorem lookupMap_cons {α : Type} (a : String) (b : α) (m : List (String × α))
    (k : String) :
    lookupMap ((a, b) :: m) k = if a = k then some b else lookupMap m k := by
  by_cases h : a = k
  · simp [lookupMap, List.find?_cons, h]
  · simp [lookupMap, List.find?_cons, h]

theorem lookupMap_map_ne {J : Type} (m : List (String × J)) (k k' : String)
    (v : J) (hne : k' ≠ k) :
    lookupMap (m.map (fun p => if p.1 = k then (k, v) else p)) k' =
      lookupMap m k' := by
  induction m with
  | nil => rfl
  | cons p m ih =>
    obtain ⟨a, b⟩ := p
    rw [List.map_cons]
    by_cases hak : a = k
    · have h2 : ¬ (a = k') := fun hh => hne (hak ▸ hh.symm)
      have h3 : ¬ (k = k') := fun hh => hne hh.symm
      rw [if_pos hak, lookupMap_cons, lookupMap_cons, if_neg h3, if_neg h2, ih]
    · simp only [if_neg hak]
      rw [lookupMap_cons, lookupMap_cons, ih]

theorem lookupMap_insertEntry {J : Type} (m : List (String × J)) (k k' : String)
    (v : J) :
    lookupMap (insertEntry m k v) k' = if k' = k then some v else lookupMap m k' := by
  induction m with
  | nil =>
    by_cases h : k' = k
    · simp [insertEntry, lookupMap_cons, lookupMap_nil, h]
    · have h2 : ¬ (k = k') := fun hh => h hh.symm
      simp [insertEntry, lookupMap_cons, lookupMap_nil, h, h2]
  | cons p m ih =>
    obtain ⟨a, b⟩ := p
    by_cases hak : a = k
    · have hfind : (((a, b) :: m).find? (fun p => decide (p.1 = k))).isSome = true := by
        simp [List.find?_cons, hak]
      have hins : insertEntry ((a, b) :: m) k v =
          (k, v) :: m.map (fun p => if p.1 = k then (k, v) else p) := by
        simp [insertEntry, hfind, List.map_cons, hak]
      rw [hins, lookupMap_cons, lookupMap_cons]
      by_cases h : k' = k
      · simp [h]
      · have h2 : ¬ (k = k') := fun hh => h hh.symm
        have h3 : ¬ (a = k') := fun hh => h (hak ▸ hh).symm
        simp [h, h2, h3, lookupMap_map_ne m k k' v h]
    · have hstep : insertEntry ((a, b) :: m) k v = (a, b) :: insertEntry m k v := by
        by_cases hc : (m.find? (fun p => decide (p.1 = k))).isSome = true
        · simp [insertEntry, List.find?_cons, hak, hc]
        · simp only [Bool.not_eq_true] at hc
          simp [insertEntry, List.find?_cons, hak, hc]
      rw [hstep, lookupMap_cons, lookupMap_cons, ih]
      by_cases h : k' = k
      · simp [h, hak]
      · simp [h]

theorem processEntries_ok_lookup {J : Type} (env : Env J)
    (l : List ContextLoaderEntry) (m m' : List (String × RemoteDocument J))
    (h : processEntries env l m = RunResult.ok m') (k : String) :
    lookupMap m' k =
      match l.reverse.find? (fun e => decide (e.iri = k)) with
      | some e => entryDoc env e
      | none => lookupMap m k := by
  induction l generalizing m with
  | nil =>
    simp only [processEntries, RunResult.ok.injEq] at h
    subst h
    rfl
  | cons e rest ih =>
    cases hi : env.iriNew e.iri with
    | error msg => simp [processEntries, hi] at h
    | ok u =>
      cases hr : env.readToString e.doc_body_file_path with
      | error msg => simp [processEntries, hi, hr] at h
      | ok body =>
        cases hj : env.jsonParse body with
        | error msg => simp [processEntries, hi, hr, hj] at h
        | ok doc =>
          have h2 : processEntries env rest
              (insertEntry m e.iri ⟨doc, e.iri⟩) = RunResult.ok m' := by
            simpa [processEntries, hi, hr, hj] using h
          rw [ih _ h2, List.reverse_cons, List.find?_append]
          cases hfind : rest.reverse.find? (fun e2 => decide (e2.iri = k)) with
          | some e2 => simp [Option.or]
          | none =>
            by_cases hk : e.iri = k
            · simp [Option.or, List.find?_cons, hk, lookupMap_insertEntry,
                entryDoc, hr, hj]
            · have hk2 : ¬ (k = e.iri) := fun hh => hk hh.symm
              simp [Option.or, List.find?_cons, hk, lookupMap_insertEntry, hk2]

theorem processEntries_ok_of_checks {J : Type} (env : Env J)
    (l : List ContextLoaderEntry) (hl : ∀ e ∈ l, entryChecks env e = true)
    (m : List (String × RemoteDocument J)) :
    ∃ m', processEntries env l m = RunResult.ok m' := by
  induction l generalizing m with
  | nil => exact ⟨m, rfl⟩
  | cons e rest ih =>
    have he := hl e (List.mem_cons_self e rest)
    cases hi : env.iriNew e.iri with
    | error msg => simp [entryChecks, hi] at he
    | ok u =>
      cases hr : env.readToString e.doc_body_file_path with
      | error msg => simp [entryChecks, hi, hr] at he
      | ok body =>
        cases hj : env.jsonParse body with
        | error msg => simp [entryChecks, hi, hr, hj] at he
        | ok doc =>
          obtain ⟨m', hm'⟩ :=
            ih (fun e2 he2 => hl e2 (List.mem_cons_of_mem _ he2))
              (insertEntry m e.iri ⟨doc, e.iri⟩)
          exact ⟨m', by simp [processEntries, hi, hr, hj, hm']⟩

theorem checks_of_processEntries_ok {J : Type} (env : Env J)
    (l : List ContextLoaderEntry) (m m' : List (String × RemoteDocument J))
    (h : processEntries env l m = RunResult.ok m') :
    ∀ e ∈ l, entryChecks env e = true := by
  induction l generalizing m with
  | nil => intro e he; cases he
  | cons e rest ih =>
    cases hi : env.iriNew e.iri with
    | error msg => simp [processEntries, hi] at h
    | ok u =>
      cases hr : env.readToString e.doc_body_file_path with
      | error msg => simp [processEntries, hi, hr] at h
      | ok body =>
        cases hj : env.jsonParse body with
        | error msg => simp [processEntries, hi, hr, hj] at h
        | ok doc =>
          have h2 : processEntries env rest
              (insertEntry m e.iri ⟨doc, e.iri⟩) = RunResult.ok m' := by
            simpa [processEntries, hi, hr, hj] using h
          intro e2 he2
          rcases List.mem_cons.mp he2 with rfl | hmem
          · simp [entryChecks, hi, hr, hj]
          · exact ih _ h2 e2 hmem

theorem processEntries_panicked_shape {J : Type} (env : Env J)
    (l : List ContextLoaderEntry) (m : List (String × RemoteDocument J))
    (msg : String)
    (h : processEntries env l m =
      RunResult.panicked (Error.invalidContextLoaderEntry msg)) :
    ∃ e ∈ l, ∃ cause,
      (env.iriNew e.iri = Except.error cause ∧
        msg = "invalid IRI: " ++ rustDebug e.iri ++ "; error was " ++ cause) ∨
      (env.readToString e.doc_body_file_path = Except.error cause ∧
        msg = "could not read doc body from path: " ++
          rustDebug e.doc_body_file_path ++ "; error was " ++ cause) ∨
      (∃ body, env.readToString e.doc_body_file_path = Except.ok body ∧
        env.jsonParse body = Except.error cause ∧
        msg = "invalid JSONLD context doc body at path: " ++
          rustDebug e.doc_body_file_path ++ "; error was " ++ cause) := by
  induction l generalizing m with
  | nil => simp [processEntries] at h
  | cons e rest ih =>
    cases hi : env.iriNew e.iri with
    | error cause =>
      simp only [processEntries, hi, RunResult.panicked.injEq,
        Error.invalidContextLoaderEntry.injEq] at h
      exact ⟨e, List.mem_cons_self e rest, cause, Or.inl ⟨hi, h.symm⟩⟩
    | ok u =>
      cases hr : env.readToString e.doc_body_file_path with
      | error cause =>
        simp only [processEntries, hi, hr, RunResult.panicked.injEq,
          Error.invalidContextLoaderEntry.injEq] at h
        exact ⟨e, List.mem_cons_self e rest, cause,
          Or.inr (Or.inl ⟨hr, h.symm⟩)⟩
      | ok body =>
        cases hj : env.jsonParse body with
        | error cause =>
          simp only [processEntries, hi, hr, hj, RunResult.panicked.injEq,
            Error.invalidContextLoaderEntry.injEq] at h
          exact ⟨e, List.mem_cons_self e rest, cause,
            Or.inr (Or.inr ⟨body, hr, hj, h.symm⟩)⟩
        | ok doc =>
          have h2 : processEntries env rest (insertEntry m e.iri ⟨doc, e.iri⟩) =
              RunResult.panicked (Error.invalidContextLoaderEntry msg) := by
            simpa [processEntries, hi, hr, hj] using h
          obtain ⟨e2, he2, cause, hd⟩ := ih _ h2
          exact ⟨e2, List.mem_cons_of_mem _ he2, cause, hd⟩

theorem find?_reverse_of_pairwise (entries : List ContextLoaderEntry)
    (e : ContextLoaderEntry) (he : e ∈ entries)
    (hp : entries.Pairwise (fun a b => a.iri ≠ b.iri)) :
    entries.reverse.find? (fun e2 => decide (e2.iri = e.iri)) = some e := by
  induction entries with
  | nil => cases he
  | cons a rest ih =>
    rw [List.reverse_cons, List.find?_append]
    rcases List.mem_cons.mp he with rfl | hmem
    · have hnone : rest.reverse.find? (fun e2 => decide (e2.iri = e.iri)) = none := by
        rw [List.find?_eq_none]
        intro x hx
        simp only [decide_eq_true_eq]
        intro hobj
        exact (List.pairwise_cons.mp hp).1 x (List.mem_reverse.mp hx) hobj.symm
      rw [hnone]
      simp [Option.or, List.find?_cons]
    · rw [ih hmem (List.pairwise_cons.mp hp).2]
      simp [Option.or]

theorem containsStr_refl (s : String) : containsStr s s :=
  ⟨[], [], by simp⟩

theorem containsStr_appendL {s sub : String} (t : String) (h : containsStr s sub) :
    containsStr (s ++ t) sub := by
  obtain ⟨a, b, hab⟩ := h
  exact ⟨a, b ++ t.data, by simp [String.data_append, hab]⟩

theorem containsStr_appendR {s sub : String} (t : String) (h : containsStr s sub) :
    containsStr (t ++ s) sub := by
  obtain ⟨a, b, hab⟩ := h
  exact ⟨t.data ++ a, b, by simp [String.data_append, hab]⟩

theorem containsStr_rustDebug (s : String) : containsStr (rustDebug s) s :=
  containsStr_appendL _ (containsStr_appendR _ (containsStr_refl s))

theorem containsStr_fmt (pre mid cause v : String) :
    containsStr (pre ++ rustDebug v ++ mid ++ cause) v ∧
    containsStr (pre ++ rustDebug v ++ mid ++ cause) cause :=
  ⟨containsStr_appendL _ (containsStr_appendL _
      (containsStr_appendR _ (containsStr_rustDebug v))),
    containsStr_appendR _ (containsStr_refl cause)⟩

/- ------------------------------------------------------------------ -/
/- The claims.                                                         -/
/- ------------------------------------------------------------------ -/

/-- C1 (counterexample): `dupOpts` declares two additional-context entries
with the same identifier string, both files readable and parseable, yet
`to_context_loader` completes without any collision error and the second
entry's document has silently overwritten the first in the overlay map. -/
theorem duplicate_identifier_no_collision_error_cex :
    dupOpts.additional_contexts =
      some [⟨"https://a", "/f1"⟩, ⟨"https://a", "/f2"⟩] ∧
    dupOpts.to_context_loader exEnv =
      RunResult.ok ⟨exEnv.defaultContexts, some [(("https://a"), ⟨4, "https://a"⟩)]⟩ :=
  ⟨rfl, by decide⟩

/-- C1 (amended): `to_context_loader` performs no duplicate-identifier
check at all: whenever every declared entry passes its own three checks
(identifier parses as an IRI, file readable, body parses as JSON),
construction succeeds even when two entries share the same identifier;
no collision error exists in the code. -/
theorem duplicate_identifier_accepted {J : Type} (env : Env J)
    (o : ContextLoaderOptions) (entries : List ContextLoaderEntry)
    (h1 : o.additional_contexts = some entries)
    (h2 : ∀ e ∈ entries, entryChecks env e = true) :
    ∃ l, o.to_context_loader env = RunResult.ok l := by
  obtain ⟨m', hm'⟩ := processEntries_ok_of_checks env entries h2 []
  exact ⟨(baseLoader env o.disable_default_contexts).with_context_map m',
    by simp [ContextLoaderOptions.to_context_loader, h1, hm']⟩

/-- Witness for the amended C1 at `dupOpts` (duplicate identifiers) under
`exEnv`. -/
theorem duplicate_identifier_accepted_witness :
    ∃ l, dupOpts.to_context_loader exEnv = RunResult.ok l :=
  duplicate_identifier_accepted exEnv dupOpts
    [⟨"https://a", "/f1"⟩, ⟨"https://a", "/f2"⟩] rfl (by decide)

/-- C2 (counterexample): at `badIriOpts` the single entry's identifier
fails IRI parsing, and `to_context_loader` terminates by panicking
(unwrap-style) instead of returning the typed error to the caller. -/
theorem construction_failure_panics_cex :
    badIriOpts.to_context_loader exEnv =
      RunResult.panicked (Error.invalidContextLoaderEntry
        ("invalid IRI: \"bad iri\"; error was space not allowed")) := by
  decide

/-- C2 (amended): every construction failure in `to_context_loader`
terminates the call by a panic carrying the typed
`Error::InvalidContextLoaderEntry` value, and no default or partial
loader is ever produced: a loader is returned only when every declared
entry passed all of its checks, and whenever some entry fails its checks
the call panics with that typed error. -/
theorem construction_all_or_nothing {J : Type} (env : Env J)
    (o : ContextLoaderOptions) :
    (∃ l, o.to_context_loader env = RunResult.ok l ∧
      ∀ e ∈ o.additional_contexts.getD [], entryChecks env e = true) ∨
    (∃ entries, o.additional_contexts = some entries ∧
      (∃ e ∈ entries, entryChecks env e = false) ∧
      ∃ msg, o.to_context_loader env =
        RunResult.panicked (Error.invalidContextLoaderEntry msg)) := by
  cases ha : o.additional_contexts with
  | none =>
    left
    exact ⟨baseLoader env o.disable_default_contexts,
      by simp [ContextLoaderOptions.to_context_loader, ha], by simp [ha]⟩
  | some entries =>
    cases hp : processEntries env entries ([] : List (String × RemoteDocument J)) with
    | ok m' =>
      left
      refine ⟨(baseLoader env o.disable_default_contexts).with_context_map m',
        by simp [ContextLoaderOptions.to_context_loader, ha, hp], ?_⟩
      simp only [ha, Option.getD_some]
      exact checks_of_processEntries_ok env entries _ _ hp
    | panicked err =>
      right
      cases err with
      | invalidContextLoaderEntry msg =>
        refine ⟨entries, rfl, ?_, msg,
          by simp [ContextLoaderOptions.to_context_loader, ha, hp]⟩
        by_contra hall
        push_neg at hall
        obtain ⟨m', hm'⟩ := processEntries_ok_of_checks env entries
          (fun e he => by simpa using hall e he) []
        simp [hm'] at hp

/-- C3 (counterexample): the endpoint string "not a url" does not parse as
a valid HTTP(S) resolver target, yet options parsing accepts it verbatim
and `to_resolver` places it in the chain: construction never fails on an
invalid endpoint, at configuration-parse time or otherwise. -/
theorem invalid_endpoint_accepted_cex :
    isValidHttpEndpoint ("not a url") = false ∧
    parseResolverOptions (some ("not a url")) none =
      ⟨some ⟨"not a url"⟩, none⟩ ∧
    (parseResolverOptions (some ("not a url")) none).to_resolver =
      ⟨[ResolverRef.registry, ResolverRef.http ⟨"not a url"⟩]⟩ :=
  ⟨by decide, rfl, rfl⟩

/-- C3 (amended): endpoint strings are never validated at
configuration-parse time: every string, whether or not it is a valid
HTTP(S) resolver target, is accepted by the infallible
`HTTPDIDResolver::new`, wrapped verbatim, and placed in the resolver
chain unchanged; no invalid-endpoint error exists in the code. -/
theorem endpoint_accepted_verbatim (s t : String) :
    HTTPDIDResolver.new s = ⟨s⟩ ∧
    (parseResolverOptions (some s) (some t)).to_resolver =
      ⟨[ResolverRef.http ⟨t⟩, ResolverRef.registry, ResolverRef.http ⟨s⟩]⟩ :=
  ⟨rfl, rfl⟩

/-- C4: for every `ResolverOptions` configuration, `to_resolver` produces
exactly the ordered chain override-resolver first (when configured), then
the built-in registry resolver, then the fallback resolver last (when
configured); with neither configured the chain is exactly the registry
resolver, and with both it is override, registry, fallback in that
order. -/
theorem to_resolver_chain_order (o : ResolverOptions) :
    o.to_resolver.resolvers =
      (match o.did_resolver_override with
       | some r => [ResolverRef.http r]
       | none => []) ++
      [ResolverRef.registry] ++
      (match o.did_resolver with
       | some r => [ResolverRef.http r]
       | none => []) := by
  obtain ⟨dr, dro⟩ := o
  cases dr <;> cases dro <;> rfl

/-- C5 (counterexample): at `notJsonOpts` the identifiers are pairwise
distinct and the single entry's file is readable, yet no loader resolving
anything is produced: the body fails JSON parsing and the call panics,
because the code parses every body before storing it (it never stores raw
bytes). -/
theorem loader_raw_contents_cex :
    exEnv.readToString ("/notjson") = Except.ok ("not json") ∧
    notJsonOpts.to_context_loader exEnv =
      RunResult.panicked (Error.invalidContextLoaderEntry
        ("invalid JSONLD context doc body at path: \"/notjson\"; error was unexpected token")) :=
  ⟨rfl, by decide⟩

/-- C5 (amended): for every additional-contexts list whose identifiers are
pairwise distinct and whose entries all pass their checks (identifier
parses as an IRI, file readable, body parses as JSON), `to_context_loader`
succeeds and the produced loader resolves each configured identifier to
the parsed JSON document of that entry's file contents. -/
theorem loader_resolves_parsed_docs {J : Type} (env : Env J)
    (o : ContextLoaderOptions) (entries : List ContextLoaderEntry)
    (h1 : o.additional_contexts = some entries)
    (h2 : entries.Pairwise (fun a b => a.iri ≠ b.iri))
    (h3 : ∀ e ∈ entries, entryChecks env e = true) :
    ∃ l, o.to_context_loader env = RunResult.ok l ∧
      ∀ e ∈ entries, ∀ body doc,
        env.readToString e.doc_body_file_path = Except.ok body →
        env.jsonParse body = Except.ok doc →
        l.load e.iri = some doc := by
  obtain ⟨m', hm'⟩ := processEntries_ok_of_checks env entries h3 []
  refine ⟨(baseLoader env o.disable_default_contexts).with_context_map m',
    by simp [ContextLoaderOptions.to_context_loader, h1, hm'], ?_⟩
  intro e he body doc hbody hdoc
  have hlook := processEntries_ok_lookup env entries [] m' hm' e.iri
  rw [find?_reverse_of_pairwise entries e he h2] at hlook
  have hdoc2 : entryDoc env e = some ⟨doc, e.iri⟩ := by
    simp [entryDoc, hbody, hdoc]
  simp [ContextLoader.load, ContextLoader.with_context_map, hlook, hdoc2]

/-- Witness for the amended C5 at `distinctOpts` under `exEnv`. -/
theorem loader_resolves_parsed_docs_witness :
    ∃ l, distinctOpts.to_context_loader exEnv = RunResult.ok l ∧
      ∀ e ∈ [(⟨"https://a", "/f1"⟩ : ContextLoaderEntry), ⟨"https://b", "/f2"⟩],
        ∀ body doc,
        exEnv.readToString e.doc_body_file_path = Except.ok body →
        exEnv.jsonParse body = Except.ok doc →
        l.load e.iri = some doc :=
  loader_resolves_parsed_docs exEnv distinctOpts
    [⟨"https://a", "/f1"⟩, ⟨"https://b", "/f2"⟩] rfl (by decide) (by decide)

/-- C6: with no additional-contexts entries configured, `to_context_loader`
returns the base layer unchanged: with `disable_default_contexts = true`
the resulting loader resolves nothing (every lookup is not-found), and
with `disable_default_contexts = false` the loader is the built-in default
set alone. -/
theorem no_additional_contexts_base_unchanged {J : Type} (env : Env J) :
    ((⟨true, none⟩ : ContextLoaderOptions).to_context_loader env =
      RunResult.ok (ContextLoader.emptyLoader J)) ∧
    (∀ id, (ContextLoader.emptyLoader J).load id = none) ∧
    ((⟨false, none⟩ : ContextLoaderOptions).to_context_loader env =
      RunResult.ok (ContextLoader.defaultLoader env)) ∧
    (∀ id, (ContextLoader.defaultLoader env).load id =
      lookupMap env.defaultContexts id) :=
  ⟨rfl, fun _ => rfl, rfl, fun _ => rfl⟩

/-- C7: every construction failure of `to_context_loader` names the
offending value: the panic message carries the underlying cause, and
contains the entry's identifier string when IRI parsing failed, or the
entry's file path when the file read or its JSON parse failed; no failure
branch produces an error without the offending value. -/
theorem panic_names_offending_value {J : Type} (env : Env J)
    (o : ContextLoaderOptions) (msg : String)
    (h : o.to_context_loader env =
      RunResult.panicked (Error.invalidContextLoaderEntry msg)) :
    ∃ entries e, o.additional_contexts = some entries ∧ e ∈ entries ∧
      ∃ cause, containsStr msg cause ∧
        ((env.iriNew e.iri = Except.error cause ∧ containsStr msg e.iri) ∨
         (env.readToString e.doc_body_file_path = Except.error cause ∧
           containsStr msg e.doc_body_file_path) ∨
         (∃ body, env.readToString e.doc_body_file_path = Except.ok body ∧
           env.jsonParse body = Except.error cause ∧
           containsStr msg e.doc_body_file_path)) := by
  cases ha : o.additional_contexts with
  | none => simp [ContextLoaderOptions.to_context_loader, ha] at h
  | some entries =>
    cases hp : processEntries env entries ([] : List (String × RemoteDocument J)) with
    | ok m' => simp [ContextLoaderOptions.to_context_loader, ha, hp] at h
    | panicked err =>
      have herr : err = Error.invalidContextLoaderEntry msg := by
        simpa [ContextLoaderOptions.to_context_loader, ha, hp] using h
      subst herr
      obtain ⟨e, he, cause, hd⟩ :=
        processEntries_panicked_shape env entries _ msg hp
      refine ⟨entries, e, rfl, he, cause, ?_, ?_⟩
      · rcases hd with ⟨_, hmsg⟩ | ⟨_, hmsg⟩ | ⟨body, _, _, hmsg⟩ <;>
          rw [hmsg] <;> exact (containsStr_fmt _ _ _ _).2
      · rcases hd with ⟨hfail, hmsg⟩ | ⟨hfail, hmsg⟩ | ⟨body, hok, hfail, hmsg⟩
        · exact Or.inl ⟨hfail, by rw [hmsg]; exact (containsStr_fmt _ _ _ _).1⟩
        · exact Or.inr (Or.inl ⟨hfail, by rw [hmsg]; exact (containsStr_fmt _ _ _ _).1⟩)
        · exact Or.inr (Or.inr ⟨body, hok, hfail,
            by rw [hmsg]; exact (containsStr_fmt _ _ _ _).1⟩)

/-- Witness for C7 at `badIriOpts` under `exEnv`. -/
theorem panic_names_offending_value_witness :
    ∃ entries e, badIriOpts.additional_contexts = some entries ∧ e ∈ entries ∧
      ∃ cause,
        containsStr ("invalid IRI: \"bad iri\"; error was space not allowed") cause ∧
        ((exEnv.iriNew e.iri = Except.error cause ∧
          containsStr ("invalid IRI: \"bad iri\"; error was space not allowed") e.iri) ∨
         (exEnv.readToString e.doc_body_file_path = Except.error cause ∧
           containsStr ("invalid IRI: \"bad iri\"; error was space not allowed")
             e.doc_body_file_path) ∨
         (∃ body, exEnv.readToString e.doc_body_file_path = Except.ok body ∧
           exEnv.jsonParse body = Except.error cause ∧
           containsStr ("invalid IRI: \"bad iri\"; error was space not allowed")
             e.doc_body_file_path)) :=
  panic_names_offending_value exEnv badIriOpts
    ("invalid IRI: \"bad iri\"; error was space not allowed") (by decide)

/-- C8: for every `ResolverOptions` configuration, the built-in registry
resolver appears exactly once in the chain produced by `to_resolver`, and
the chain's length is 1 plus one for a configured fallback plus one for a
configured override, hence always between 1 and 3. -/
theorem to_resolver_registry_once_length (o : ResolverOptions) :
    o.to_resolver.resolvers.countP (fun x => decide (x = ResolverRef.registry)) = 1 ∧
    o.to_resolver.resolvers.length =
      1 + (if o.did_resolver.isSome then 1 else 0) +
        (if o.did_resolver_override.isSome then 1 else 0) ∧
    1 ≤ o.to_resolver.resolvers.length ∧ o.to_resolver.resolvers.length ≤ 3 := by
  obtain ⟨dr, dro⟩ := o
  cases dr <;> cases dro <;>
    simp [ResolverOptions.to_resolver, List.countP_cons]

/-- C9: `to_context_loader` distinguishes an absent additional-contexts
option from a present-but-empty list: with an empty list it does not
return the base layer object unchanged but attaches a freshly built empty
overlay context map to it, while with the option absent it returns the
base layer itself (whose overlay map slot is empty). -/
theorem empty_additional_contexts_fresh_overlay {J : Type} (env : Env J) (b : Bool) :
    ((⟨b, some []⟩ : ContextLoaderOptions).to_context_loader env =
      RunResult.ok ((baseLoader env b).with_context_map [])) ∧
    ((⟨b, none⟩ : ContextLoaderOptions).to_context_loader env =
      RunResult.ok (baseLoader env b)) ∧
    ((baseLoader env b).with_context_map []).contextMap =
      some ([] : List (String × RemoteDocument J)) ∧
    (baseLoader env b).contextMap = none := by
  refine ⟨?_, rfl, rfl, ?_⟩
  · cases b <;> rfl
  · cases b <;> rfl

/-- C10: when two additional-contexts entries share the same identifier
and every entry's file is readable with a valid JSON body,
`to_context_loader` completes without any error and the produced loader
resolves each identifier to the document of the last entry in the list
bearing it — in particular the later of two duplicates wins. -/
theorem last_duplicate_wins {J : Type} (env : Env J)
    (o : ContextLoaderOptions) (entries : List ContextLoaderEntry)
    (k : String) (e : ContextLoaderEntry)
    (h1 : o.additional_contexts = some entries)
    (h2 : ∀ e2 ∈ entries, entryChecks env e2 = true)
    (h3 : entries.reverse.find? (fun e2 => decide (e2.iri = k)) = some e) :
    ∃ l body doc, o.to_context_loader env = RunResult.ok l ∧
      env.readToString e.doc_body_file_path = Except.ok body ∧
      env.jsonParse body = Except.ok doc ∧
      l.load k = some doc := by
  obtain ⟨m', hm'⟩ := processEntries_ok_of_checks env entries h2 []
  have he : e ∈ entries := List.mem_reverse.mp (List.mem_of_find?_eq_some h3)
  have hch := h2 e he
  cases hi : env.iriNew e.iri with
  | error msg => simp [entryChecks, hi] at hch
  | ok u =>
    cases hr : env.readToString e.doc_body_file_path with
    | error msg => simp [entryChecks, hi, hr] at hch
    | ok body =>
      cases hj : env.jsonParse body with
      | error msg => simp [entryChecks, hi, hr, hj] at hch
      | ok doc =>
        have hlook := processEntries_ok_lookup env entries [] m' hm' k
        rw [h3] at hlook
        have hdoc2 : entryDoc env e = some ⟨doc, e.iri⟩ := by
          simp [entryDoc, hr, hj]
        refine ⟨(baseLoader env o.disable_default_contexts).with_context_map m',
          body, doc,
          by simp [ContextLoaderOptions.to_context_loader, h1, hm'], rfl, hj, ?_⟩
        simp [ContextLoader.load, ContextLoader.with_context_map, hlook, hdoc2]

/-- Witness for C10 at `dupOpts` under `exEnv`: the duplicated identifier
resolves to the second entry's document. -/
theorem last_duplicate_wins_witness :
    ∃ l body doc, dupOpts.to_context_loader exEnv = RunResult.ok l ∧
      exEnv.readToString ("/f2") = Except.ok body ∧
      exEnv.jsonParse body = Except.ok doc ∧
      l.load ("https://a") = some doc :=
  last_duplicate_wins exEnv dupOpts
    [⟨"https://a", "/f1"⟩, ⟨"https://a", "/f2"⟩] ("https://a")
    ⟨"https://a", "/f2"⟩ rfl (by decide) (by decide)

end DidkitOpts
